import Mathlib

/-!
Verification of the synthetic-data generation core of the `production-ml`
repository: a shallow embedding in Lean 4 of the chunked generation
orchestrator (`src/data/synthetic_data_service.py`), the mixture model
(`src/models/vgm.py`) and the transactional-store export
(`src/data/db_manager.py`), with theorems settling the specification
claims about volumes, file formats, merge behaviour and error handling.
Python machine floats are idealised as rationals (exact arithmetic) except
where the Gaussian density is needed, which is modelled over the reals.
-/

namespace ProductionML

/-- Python exception classes relevant to the claims. -/
inductive PyErr where
  | fitError
  | notFittedError
  | typeError
  | indexError
  | validationError
  | valueError
  | zeroDivisionError
  | ioError
deriving DecidableEq

/-! ## Generation volume arithmetic

`_generate_data_chunks` (synthetic_data_service.py line 74):
`num_chunks = (target_size + chunk_size - 1) // chunk_size`. -/

def numChunks (targetSize chunkSize : ℕ) : ℕ := (targetSize + chunkSize - 1) / chunkSize

/-- `_generate_chunks_in_parallel` (line 91): the number of temp files is
`(num_chunks + chunks_per_file - 1) // chunks_per_file`. -/
def numFiles (nc chunksPerFile : ℕ) : ℕ := (nc + chunksPerFile - 1) / chunksPerFile

/-! ## The `%.6f` row format of `np.savetxt` (line 113) -/

/-- The six digit characters of `n % 10^6`, most significant first,
as written by the C `%.6f` conversion after the decimal point. -/
def digits6 (n : ℕ) : String :=
  String.mk [Nat.digitChar (n / 100000 % 10), Nat.digitChar (n / 10000 % 10),
    Nat.digitChar (n / 1000 % 10), Nat.digitChar (n / 100 % 10),
    Nat.digitChar (n / 10 % 10), Nat.digitChar (n % 10)]

/-- `%.6f` formatting of a value `q` (floats idealised as rationals; the
decimal rounding of the conversion is `round`, ties are not exercised). -/
def fmt6 (q : ℚ) : String :=
  (if q < 0 then "-" else "") ++
    Nat.repr ((round (q * 1000000)).natAbs / 1000000) ++ "." ++
    digits6 ((round (q * 1000000)).natAbs % 1000000)

/-- The characters after the last `.` of a line. -/
def fracPart (s : String) : List Char :=
  (s.toList.reverse.takeWhile (fun c => c != '.')).reverse

/-- The spec's flat-file row format: a decimal value with exactly six
fractional digits. -/
def sixFrac (s : String) : Prop :=
  '.' ∈ s.toList ∧ (fracPart s).length = 6 ∧ ∀ c ∈ fracPart s, c.isDigit = true

instance (s : String) : Decidable (sixFrac s) := by
  unfold sixFrac; infer_instance

/-! ## Worker artifact files

`_write_chunks_to_file` (lines 105-114): writes the header `Amount`, then
up to `chunks_per_file` chunks, stopping early when its local copy of
`num_chunks` reaches zero; each chunk is one `%.6f` row per record.
The synthetic values of the chunks (drawn by `_generate_chunk`) are
abstracted as a supply `chunks : ℕ → List ℚ` indexed by loop iteration. -/

def writeLoop (chunks : ℕ → List ℚ) : ℕ → ℤ → ℕ → List String
  | 0, _, _ => []
  | i + 1, n, idx =>
      if n ≤ 0 then []
      else ((chunks idx).map fmt6) ++ writeLoop chunks i (n - 1) (idx + 1)

def writeChunksLines (chunks : ℕ → List ℚ) (chunksPerFile : ℕ) (nc : ℤ) : List String :=
  "Amount" :: writeLoop chunks chunksPerFile nc 0

/-- `_generate_chunks_in_parallel` (lines 86-103): one temp file per file
number; every submission passes the same, full `num_chunks` to
`_write_chunks_to_file`.  `chunkSrc f i` is the data of iteration `i` of
file `f`. -/
def generateChunksInParallel (chunkSrc : ℕ → ℕ → List ℚ) (nc cpf : ℕ) :
    List (List String) :=
  (List.range (numFiles nc cpf)).map
    (fun fileNo => writeChunksLines (chunkSrc fileNo) cpf (nc : ℤ))

/-- Records in a file = lines after the header. -/
def totalRecords (files : List (List String)) : ℕ :=
  (files.map (fun f => (f.drop 1).length)).sum

/-! ## Batching of the merge stage

`_concatenate_results` (line 124) walks the temp files in slices of 5. -/

def chunk5 {α : Type} : List α → List (List α)
  | [] => []
  | a :: rest => ((a :: rest).take 5) :: chunk5 (rest.drop 4)
termination_by l => l.length
decreasing_by simp [List.length_drop]; omega

theorem chunk5_flatten {α : Type} : ∀ l : List α, (chunk5 l).flatten = l := by
  intro l
  induction l using chunk5.induct with
  | case1 => simp [chunk5]
  | case2 a rest ih =>
      rw [chunk5]
      have h5 : (a :: rest).drop 5 = rest.drop 4 := by simp
      calc ((a :: rest).take 5 :: chunk5 (rest.drop 4)).flatten
          = (a :: rest).take 5 ++ (chunk5 (rest.drop 4)).flatten := by simp
        _ = (a :: rest).take 5 ++ rest.drop 4 := by rw [ih]
        _ = (a :: rest).take 5 ++ (a :: rest).drop 5 := by rw [h5]
        _ = a :: rest := List.take_append_drop 5 (a :: rest)

/-- `_process_file_batch` (lines 131-148) restricted to content: for each
temp file of the batch, skip the header line, copy the remaining lines. -/
def processFileBatch (batch : List (List String)) : List String :=
  batch.flatMap (fun f => f.drop 1)

/-- `_concatenate_results` (lines 116-129): write the final header once,
then process the temp files in batches of 5. -/
def concatenateResults (files : List (List String)) : List String :=
  "Amount" :: (chunk5 files).flatMap processFileBatch

theorem flatMap_flatten {α β : Type} (L : List (List α)) (g : α → List β) :
    L.flatten.flatMap g = L.flatMap (fun b => b.flatMap g) := by
  induction L with
  | nil => simp
  | cons b rest ih => simp [ih]

theorem concatenate_flat (files : List (List String)) :
    (chunk5 files).flatMap processFileBatch = files.flatMap (fun f => f.drop 1) := by
  have h := flatMap_flatten (chunk5 files) (fun f => f.drop 1)
  rw [chunk5_flatten] at h
  exact h.symm

/-- The number of chunks a single `_write_chunks_to_file` call writes is
`min chunks_per_file num_chunks`: the loop runs `chunks_per_file` times but
breaks once its local countdown reaches zero. -/
theorem writeLoop_length (chunks : ℕ → List ℚ) (cs : ℕ)
    (hcs : ∀ i, (chunks i).length = cs) :
    ∀ (cpf : ℕ) (n : ℤ) (idx : ℕ), 0 ≤ n →
      (writeLoop chunks cpf n idx).length = min cpf n.toNat * cs := by
  intro cpf
  induction cpf with
  | zero => intro n idx _; simp [writeLoop]
  | succ i ih =>
      intro n idx hn
      by_cases h0 : n ≤ 0
      · have : n = 0 := le_antisymm h0 hn
        subst this
        simp [writeLoop]
      · push_neg at h0
        have h1 : ¬ n ≤ 0 := not_le.mpr h0
        have hrec := ih (n - 1) (idx + 1) (by omega)
        simp only [writeLoop, if_neg h1, List.length_append, List.length_map,
          hcs, hrec]
        have hmin : min (i + 1) n.toNat = min i (n - 1).toNat + 1 := by omega
        rw [hmin]
        ring

/-! ## Merge-stage consumption events

The identifier of an Artifact is its file number (the temp-file name
`{base}_temp_{fileNumber}{ext}` of line 92 is determined by it); work unit
`b` writes exactly the artifact with identifier `b`.  The merge stage
(`_concatenate_results` / `_process_file_batch`) walks the identifiers in
batches of 5; per file it reads the file, then immediately unlinks it, and
flushes once per batch. -/

def artifactIds (nc cpf : ℕ) : List ℕ := List.range (numFiles nc cpf)

inductive MergeEvent where
  | read : ℕ → MergeEvent
  | del : ℕ → MergeEvent
  | flush : MergeEvent
deriving DecidableEq

/-- Events of `_process_file_batch` (lines 131-151): per temp file a read
(full copy) immediately followed by its deletion, then one flush. -/
def processFileBatchEvents (batch : List ℕ) : List MergeEvent :=
  (batch.flatMap (fun f => [MergeEvent.read f, MergeEvent.del f])) ++ [MergeEvent.flush]

def mergeEvents (files : List ℕ) : List MergeEvent :=
  (chunk5 files).flatMap processFileBatchEvents

/-- Every read of an artifact is immediately followed by its deletion. -/
def immediateDelete (l : List MergeEvent) : Prop :=
  ∀ (i : ℕ) (f : ℕ), l.get? i = some (MergeEvent.read f) →
    l.get? (i + 1) = some (MergeEvent.del f)

theorem immediateDelete_nil : immediateDelete [] := by
  intro i f h
  simp at h

theorem immediateDelete_cons (e : MergeEvent) (l : List MergeEvent)
    (he : ∀ f, e ≠ MergeEvent.read f) (h : immediateDelete l) :
    immediateDelete (e :: l) := by
  intro i f hi
  match i with
  | 0 =>
      exfalso
      simp only [List.get?_cons_zero, Option.some_inj] at hi
      exact he f hi
  | j + 1 =>
      simp only [List.get?_cons_succ] at hi ⊢
      exact h j f hi

theorem immediateDelete_pair (b : ℕ) (l : List MergeEvent)
    (h : immediateDelete l) :
    immediateDelete (MergeEvent.read b :: MergeEvent.del b :: l) := by
  intro i f hi
  match i with
  | 0 =>
      simp only [List.get?_cons_zero, Option.some_inj, MergeEvent.read.injEq] at hi
      subst hi
      rfl
  | 1 =>
      exfalso
      simp only [List.get?_cons_succ, List.get?_cons_zero, Option.some_inj] at hi
      exact MergeEvent.noConfusion hi
  | j + 2 =>
      simp only [List.get?_cons_succ] at hi ⊢
      exact h j f hi

theorem immediateDelete_batch (batch : List ℕ) (tail : List MergeEvent)
    (h : immediateDelete tail) :
    immediateDelete (processFileBatchEvents batch ++ tail) := by
  induction batch with
  | nil =>
      simp only [processFileBatchEvents, List.flatMap_nil, List.nil_append,
        List.singleton_append]
      exact immediateDelete_cons _ _ (fun f => by simp) h
  | cons b rest ih =>
      have hs : processFileBatchEvents (b :: rest) ++ tail
          = MergeEvent.read b :: MergeEvent.del b ::
            (processFileBatchEvents rest ++ tail) := by
        simp [processFileBatchEvents]
      rw [hs]
      exact immediateDelete_pair b _ ih

theorem mergeEvents_immediateDelete : ∀ files : List ℕ,
    immediateDelete (mergeEvents files) := by
  intro files
  induction files using chunk5.induct with
  | case1 => simpa [mergeEvents, chunk5] using immediateDelete_nil
  | case2 a rest ih =>
      have hs : mergeEvents (a :: rest)
          = processFileBatchEvents ((a :: rest).take 5) ++ mergeEvents (rest.drop 4) := by
        simp [mergeEvents, chunk5]
      rw [hs]
      exact immediateDelete_batch _ _ ih

theorem batchEvents_count_read (f : ℕ) (batch : List ℕ) :
    (processFileBatchEvents batch).count (MergeEvent.read f) = batch.count f := by
  induction batch with
  | nil => simp [processFileBatchEvents]
  | cons b rest ih =>
      simp only [processFileBatchEvents] at ih ⊢
      by_cases hb : b = f
      · subst hb
        simp [List.count_cons, List.count_append, ih]
      · have h1 : (MergeEvent.read b) ≠ (MergeEvent.read f) := by
          simp [hb]
        simp [List.count_cons, ih, hb, h1]

theorem mergeEvents_count_read (f : ℕ) : ∀ files : List ℕ,
    (mergeEvents files).count (MergeEvent.read f) = files.count f := by
  intro files
  induction files using chunk5.induct with
  | case1 => simp [mergeEvents, chunk5]
  | case2 a rest ih =>
      have hs : mergeEvents (a :: rest)
          = processFileBatchEvents ((a :: rest).take 5) ++ mergeEvents (rest.drop 4) := by
        simp [mergeEvents, chunk5]
      rw [hs, List.count_append, batchEvents_count_read, ih]
      have hsplit : (a :: rest).take 5 ++ rest.drop 4 = a :: rest := by
        have h5 : (a :: rest).drop 5 = rest.drop 4 := by simp
        rw [← h5]
        exact List.take_append_drop 5 (a :: rest)
      calc ((a :: rest).take 5).count f + (rest.drop 4).count f
          = ((a :: rest).take 5 ++ rest.drop 4).count f := (List.count_append ..).symm
        _ = (a :: rest).count f := by rw [hsplit]

/-! ## The masked per-mode loops of `ScalableVGM`

`inverse_transform_batch` (vgm.py lines 75-90) and the normalization loop
of `transform_batch` (lines 64-67) start from `np.zeros_like(data)` and,
for each valid component index `idx` with its `(mean, std)`, overwrite the
entries whose mode indicator equals `idx`.  The numpy masked writes are
elementwise, so a single cell is the fold of the enumerated component
list over that cell's mode indicator. -/

def modeFold {α : Type} [Zero α] (pairs : List (α × α)) (mm : ℕ) (f : α × α → α) : α :=
  pairs.enum.foldl (fun acc p => if mm = p.1 then f p.2 else acc) 0

theorem modeFold_aux {α : Type} [Zero α] (f : α × α → α) (mm : ℕ) :
    ∀ (l : List (α × α)) (k : ℕ) (acc : α),
      (List.enumFrom k l).foldl (fun acc p => if mm = p.1 then f p.2 else acc) acc
        = if k ≤ mm ∧ mm < k + l.length then f (l.getD (mm - k) (0, 0)) else acc := by
  intro l
  induction l with
  | nil =>
      intro k acc
      rw [if_neg (show ¬(k ≤ mm ∧ mm < k + ([] : List (α × α)).length) by
        simp only [List.length_nil, Nat.add_zero]; omega)]
      simp [List.enumFrom]
  | cons a l ih =>
      intro k acc
      simp only [List.enumFrom, List.foldl_cons]
      rw [ih]
      by_cases hk : mm = k
      · subst hk
        rw [if_neg (show ¬(mm + 1 ≤ mm ∧ mm < mm + 1 + l.length) by omega),
          if_pos rfl,
          if_pos (show mm ≤ mm ∧ mm < mm + (a :: l).length by
            simp only [List.length_cons]; omega)]
        simp
      · by_cases hin : k + 1 ≤ mm ∧ mm < k + 1 + l.length
        · rw [if_pos hin,
            if_pos (show k ≤ mm ∧ mm < k + (a :: l).length by
              simp only [List.length_cons]; omega)]
          have hsub : mm - k = (mm - (k + 1)) + 1 := by omega
          rw [hsub, List.getD_cons_succ]
        · rw [if_neg hin, if_neg hk,
            if_neg (show ¬(k ≤ mm ∧ mm < k + (a :: l).length) by
              simp only [List.length_cons]; omega)]

theorem modeFold_lt {α : Type} [Zero α] (pairs : List (α × α)) (mm : ℕ)
    (f : α × α → α) (h : mm < pairs.length) :
    modeFold pairs mm f = f (pairs.getD mm (0, 0)) := by
  unfold modeFold
  rw [List.enum_eq_enumFrom, modeFold_aux, if_pos (by omega)]
  simp

theorem modeFold_ge {α : Type} [Zero α] (pairs : List (α × α)) (mm : ℕ)
    (f : α × α → α) (h : pairs.length ≤ mm) :
    modeFold pairs mm f = 0 := by
  unfold modeFold
  rw [List.enum_eq_enumFrom, modeFold_aux, if_neg (by omega)]

theorem zip_getD {α β : Type} (d1 : α) (d2 : β) :
    ∀ (l1 : List α) (l2 : List β) (i : ℕ), i < l1.length → i < l2.length →
      (l1.zip l2).getD i (d1, d2) = (l1.getD i d1, l2.getD i d2) := by
  intro l1
  induction l1 with
  | nil => intro l2 i h1 _; simp at h1
  | cons a l1 ih =>
      intro l2 i h1 h2
      match l2, i with
      | [], _ => simp at h2
      | b :: l2, 0 => simp
      | b :: l2, i + 1 =>
          simp only [List.zip_cons_cons, List.getD_cons_succ]
          exact ih l2 i (by simpa using h1) (by simpa using h2)

/-- One cell of `inverse_transform_batch`: `data[i] * std + mean` for the
matching valid component, untouched zero initialisation otherwise. -/
def inverseCell {α : Type} [Zero α] [Add α] [Mul α]
    (means stds : List α) (x : α) (mm : ℕ) : α :=
  modeFold (means.zip stds) mm (fun p => x * p.2 + p.1)

/-- One cell of the normalization loop of `transform_batch`:
`(data[i] - mean) / std` for the matching valid component. -/
def forwardCell {α : Type} [Zero α] [Sub α] [Div α]
    (means stds : List α) (x : α) (mm : ℕ) : α :=
  modeFold (means.zip stds) mm (fun p => (x - p.1) / p.2)

/-- `inverse_transform_batch` (vgm.py lines 75-90). -/
def inverse_transform_batch {α : Type} [Zero α] [Add α] [Mul α]
    (means stds : List α) (data : List α) (modes : List ℕ) : List α :=
  (data.zip modes).map (fun p => inverseCell means stds p.1 p.2)

/-! ## The fitted-model state of `ScalableVGM` -/

/-- settings.py: `N_COMPONENTS = 10`. -/
def N_COMPONENTS : ℕ := 10

/-- settings.py: `EPS = 1e-6`. -/
def EPS : ℚ := 1 / 1000000

/-- `ScalableVGM` instance state: `__init__` (vgm.py lines 14-24) leaves
`means`/`stds` as `None`; `fitted` records whether `bgm.fit` has run
(sklearn's `check_is_fitted` state). -/
structure ScalableVGMState where
  n_components : ℕ
  fitted : Bool
  means : Option (List ℚ)
  stds : Option (List ℚ)
deriving DecidableEq

def initVGM (k : ℕ) : ScalableVGMState :=
  { n_components := k, fitted := false, means := none, stds := none }

/-- numpy boolean-mask indexing `arr[mask]`. -/
def maskFilter (l : List ℚ) (mask : List Bool) : List ℚ :=
  ((l.zip mask).filter (fun p => p.2)).map (fun p => p.1)

/-- A sample entry is `none` when the float is non-finite (NaN/inf),
otherwise the exact value. -/
def isConstantSample (l : List (Option ℚ)) : Bool :=
  match l with
  | [] => true
  | a :: rest => rest.all (fun x => x == a)

/-- Modelled from the spec: the input validation of
`sklearn.mixture.BayesianGaussianMixture.fit`, which `ScalableVGM.fit`
(vgm.py line 33) delegates to and which is not part of this repository —
it rejects samples shorter than `n_components`, empty or non-finite
input, and degenerate (constant) input, per spec §4.1. -/
def bgmFitValidate (sample : List (Option ℚ)) (k : ℕ) : Option PyErr :=
  if sample.length < k then some PyErr.fitError
  else if sample.any (fun x => x.isNone) then some PyErr.fitError
  else if isConstantSample sample then some PyErr.fitError
  else none

/-- `fit` (vgm.py lines 26-47).  The estimation step itself is abstracted:
`w`, `bgmMeans`, `bgmStds` are the `weights_`, `means_` and elementwise
square roots of the `covariances_` the fitted `BayesianGaussianMixture`
exposes (square roots taken here because the rational embedding has no
`sqrt`; only stds are ever used downstream).  After validation the method
prunes with `weights_ > EPS` and compacts means/stds by the mask; note the
source performs no check that any component survives. -/
def fit (st : ScalableVGMState) (sample : List (Option ℚ))
    (w bgmMeans bgmStds : List ℚ) : Except PyErr ScalableVGMState :=
  match bgmFitValidate sample st.n_components with
  | some e => Except.error e
  | none =>
      let mask := w.map (fun wi => decide (EPS < wi))
      Except.ok ⟨st.n_components, true,
        some (maskFilter bgmMeans mask), some (maskFilter bgmStds mask)⟩

/-- `transform_batch` (vgm.py lines 49-73).  `bgm.predict_proba` raises
sklearn's `NotFittedError` on an unfitted model (its `check_is_fitted`
guard); on a fitted model the arg-max component assignment it induces is
abstracted as the oracle `assign` (its real-number embedding is
`assignMode` below), after which the masked normalization loop runs. -/
def transform_batch (st : ScalableVGMState) (assign : ℚ → ℕ)
    (data : List ℚ) : Except PyErr (List ℚ) :=
  if st.fitted = false then Except.error PyErr.notFittedError
  else
    match st.means, st.stds with
    | some ms, some ss => Except.ok (data.map (fun x => forwardCell ms ss x (assign x)))
    | _, _ => Except.error PyErr.typeError

/-- `_generate_chunk` (synthetic_data_service.py lines 65-70): draws
normals and `np.random.randint(0, len(vgm.means), ...)` mode indicators
(both abstracted as inputs), then inverse-transforms.  On an unfitted
model `vgm.means` is `None` and `len(None)` raises `TypeError`. -/
def generateChunk (st : ScalableVGMState) (normals : List ℚ)
    (modeDraws : List ℕ) : Except PyErr (List ℚ) :=
  match st.means with
  | none => Except.error PyErr.typeError
  | some ms =>
      match st.stds with
      | none => Except.error PyErr.typeError
      | some ss => Except.ok (inverse_transform_batch ms ss normals modeDraws)

/-! ## Sampling for the model fit

`_fit_vgm_model` (synthetic_data_service.py lines 55-63) computes
`sample_fraction = sample_size / len(df)` and draws
`df.sample(frac=sample_fraction, replace=True)`.  There is no check that
`sample_size` does not exceed the available rows. -/

/-- Modelled from the spec context: row-count semantics of pandas
`DataFrame.sample(frac, replace)` (external library): a negative fraction
or a fraction above 1 without replacement raises `ValueError`; otherwise
`round(frac * len)` rows are drawn. -/
def pandasSampleCount (nRows : ℕ) (frac : ℚ) (replace : Bool) : Except PyErr ℕ :=
  if frac < 0 then Except.error PyErr.valueError
  else if 1 < frac ∧ replace = false then Except.error PyErr.valueError
  else Except.ok (round (frac * nRows)).toNat

/-- `_fit_vgm_model` sampling step: `sample_size / len(df)` raises
`ZeroDivisionError` on an empty frame, otherwise the fraction is handed to
`df.sample` with `replace=True`. -/
def fitVgmSampleCount (nRows sampleSize : ℕ) : Except PyErr ℕ :=
  if nRows = 0 then Except.error PyErr.zeroDivisionError
  else pandasSampleCount nRows ((sampleSize : ℚ) / (nRows : ℚ)) true

/-! ## The transactional-store export (db_manager.py lines 96-111)

`export_synthetic_data` writes the header `Amount` and then streams
`SELECT amount FROM synthetic_data ORDER BY id` through
`chunk.to_csv(f, header=False, index=False)` — pandas' default float
formatting, not `%.6f`. -/

def digitsK : ℕ → ℕ → String
  | 0, _ => ""
  | k + 1, n => digitsK k (n / 10) ++ String.mk [Nat.digitChar (n % 10)]

/-- Modelled from the source's use of pandas `to_csv` default float
formatting (external library): the shortest round-trip decimal
representation; evaluated here only at values whose exact decimal
expansion is short, where it is the minimal-length fixed decimal. -/
def minDecDigits (q : ℚ) : ℕ :=
  (((List.range 18).find? (fun k => (q * 10 ^ k).den == 1)).getD 17)

def toCsvRepr (q : ℚ) : String :=
  (if q < 0 then "-" else "") ++
    Nat.repr ((⌊q * 10 ^ minDecDigits q⌋).natAbs / 10 ^ minDecDigits q) ++
    (if minDecDigits q = 0 then ""
     else "." ++ digitsK (minDecDigits q) ((⌊q * 10 ^ minDecDigits q⌋).natAbs % 10 ^ minDecDigits q))

def exportSyntheticData (rows : List ℚ) : List String :=
  "Amount" :: rows.map toCsvRepr

/-! ## Shape of `%.6f` lines -/

theorem digitChar_isDigit : ∀ d : ℕ, d < 10 → (Nat.digitChar d).isDigit = true := by
  decide

theorem sixFrac_shape (pre : String) (cs : List Char)
    (hlen : cs.length = 6) (hd : ∀ c ∈ cs, c.isDigit = true) :
    sixFrac (pre ++ "." ++ String.mk cs) := by
  have hne : ∀ c ∈ cs, (fun c => c != '.') c = true := by
    intro c hc
    have := hd c hc
    simp only [bne_iff_ne, ne_eq]
    intro hdot
    subst hdot
    simp at this
  have hdata : (pre ++ "." ++ String.mk cs).toList = pre.toList ++ '.' :: cs := by
    show (pre ++ "." ++ String.mk cs).data = pre.data ++ '.' :: cs
    simp [String.data_append]
  have hfrac : fracPart (pre ++ "." ++ String.mk cs) = cs := by
    unfold fracPart
    rw [hdata]
    have : (pre.toList ++ '.' :: cs).reverse = cs.reverse ++ '.' :: pre.toList.reverse := by
      simp
    rw [this]
    rw [List.takeWhile_append_of_pos (by intro a ha; exact hne a (List.mem_reverse.mp ha))]
    rw [List.takeWhile_cons_of_neg (by simp)]
    simp
  refine ⟨?_, ?_, ?_⟩
  · rw [hdata]
    simp
  · rw [hfrac, hlen]
  · rw [hfrac]
    exact hd

theorem digits6_chars (n : ℕ) :
    ∃ cs : List Char, digits6 n = String.mk cs ∧ cs.length = 6 ∧
      ∀ c ∈ cs, c.isDigit = true := by
  refine ⟨_, rfl, rfl, ?_⟩
  intro c hc
  simp only [List.mem_cons, List.not_mem_nil, or_false] at hc
  rcases hc with h | h | h | h | h | h <;> subst h <;>
    exact digitChar_isDigit _ (Nat.mod_lt _ (by norm_num))

/-- Every `%.6f`-formatted line has exactly six fractional digits. -/
theorem sixFrac_fmt6 (q : ℚ) : sixFrac (fmt6 q) := by
  obtain ⟨cs, hcs, hlen, hd⟩ := digits6_chars ((round (q * 1000000)).natAbs % 1000000)
  have : fmt6 q
      = ((if q < 0 then "-" else "") ++ Nat.repr ((round (q * 1000000)).natAbs / 1000000))
        ++ "." ++ String.mk cs := by
    rw [fmt6, hcs]
  rw [this]
  exact sixFrac_shape _ cs hlen hd

/-- Every record line a worker writes is a `fmt6` rendering. -/
theorem writeLoop_lines (chunks : ℕ → List ℚ) :
    ∀ (cpf : ℕ) (n : ℤ) (idx : ℕ) (l : String),
      l ∈ writeLoop chunks cpf n idx → ∃ q : ℚ, l = fmt6 q := by
  intro cpf
  induction cpf with
  | zero => intro n idx l hl; simp [writeLoop] at hl
  | succ i ih =>
      intro n idx l hl
      by_cases h0 : n ≤ 0
      · simp [writeLoop, if_pos h0] at hl
      · rw [writeLoop, if_neg h0] at hl
        rcases List.mem_append.mp hl with h | h
        · obtain ⟨q, _, hq⟩ := List.mem_map.mp h
          exact ⟨q, hq.symm⟩
        · exact ih (n - 1) (idx + 1) l h

/-! ## The arg-max mode assignment of `transform_batch`

`bgm.predict_proba(data)` followed by restriction to the valid columns
(vgm.py lines 55-61): the posterior responsibility of component `k` at
`x` is `w_k * N(x; mean_k, std_k^2) / Z(x)` with a normaliser `Z(x) > 0`
common to all components, so the arg-max over the retained columns is the
arg-max of the unnormalised weighted densities of the valid components.
This needs real arithmetic (Gaussian densities), hence the model below is
over `ℝ`. -/

/-- The weighted Gaussian density `w * N(x; mean, std^2)`. -/
noncomputable def gaussResp (w mean std x : ℝ) : ℝ :=
  w / (std * Real.sqrt (2 * Real.pi)) * Real.exp (-((x - mean) ^ 2 / (2 * std ^ 2)))

/-- Valid (compacted) components of a fitted model: weights, means, stds. -/
structure FittedVGM where
  weights : List ℝ
  means : List ℝ
  stds : List ℝ

noncomputable def responsibilities (M : FittedVGM) (x : ℝ) : List ℝ :=
  (M.weights.zip (M.means.zip M.stds)).map (fun p => gaussResp p.1 p.2.1 p.2.2 x)

/-- `np.argmax`: index of the first occurrence of the maximum. -/
noncomputable def argmaxAux : List ℝ → ℕ → ℕ → ℝ → ℕ
  | [], _, best, _ => best
  | v :: rest, i, best, bv =>
      if bv < v then argmaxAux rest (i + 1) i v else argmaxAux rest (i + 1) best bv

noncomputable def argmaxList : List ℝ → ℕ
  | [] => 0
  | v :: rest => argmaxAux rest 1 0 v

/-- `responsibilities.argmax(axis=1)` for one sample (vgm.py line 61). -/
noncomputable def assignMode (M : FittedVGM) (x : ℝ) : ℕ :=
  argmaxList (responsibilities M x)

/-- `transform_batch` for one sample on a fitted model: assign the mode,
then run the masked normalization loop; returns the normalized value
together with the internally assigned mode indicator. -/
noncomputable def transformOne (M : FittedVGM) (x : ℝ) : ℝ × ℕ :=
  (forwardCell M.means M.stds x (assignMode M x), assignMode M x)

/-- `inverse_transform_batch` for one sample (vgm.py lines 75-90). -/
def inverseOne (M : FittedVGM) (v : ℝ) (mm : ℕ) : ℝ :=
  inverseCell M.means M.stds v mm

/-! ## Supporting lemmas for the claim theorems -/

theorem sum_map_const {α : Type} (l : List α) (g : α → ℕ) (k : ℕ)
    (h : ∀ x ∈ l, g x = k) : (l.map g).sum = l.length * k := by
  induction l with
  | nil => simp
  | cons a rest ih =>
      simp only [List.map_cons, List.sum_cons, List.length_cons]
      rw [h a (by simp), ih (fun x hx => h x (by simp [hx]))]
      ring

theorem flatMap_length_const {α β : Type} (l : List α) (g : α → List β) (k : ℕ)
    (h : ∀ x ∈ l, (g x).length = k) : (l.flatMap g).length = l.length * k := by
  induction l with
  | nil => simp
  | cons a rest ih =>
      simp only [List.flatMap_cons, List.length_append, List.length_cons]
      rw [h a (by simp), ih (fun x hx => h x (by simp [hx]))]
      ring

/-! ## Claim theorems -/

/-- Total record count of a run: each of the `numFiles` workers writes
`min chunksPerFile numChunks` chunks of `chunkSize` records, because all
of them receive the same full `num_chunks` argument. -/
theorem totalRecords_generate (chunkSrc : ℕ → ℕ → List ℚ) (cs nc cpf : ℕ)
    (hlen : ∀ f i, (chunkSrc f i).length = cs) :
    totalRecords (generateChunksInParallel chunkSrc nc cpf)
      = numFiles nc cpf * (min cpf nc * cs) := by
  rw [totalRecords, generateChunksInParallel, List.map_map]
  rw [sum_map_const (List.range (numFiles nc cpf)) _ (min cpf nc * cs)
    (fun f _ => by
      show ((writeChunksLines (chunkSrc f) cpf (nc : ℤ)).drop 1).length = min cpf nc * cs
      rw [writeChunksLines]
      simp only [List.drop_succ_cons, List.drop_zero]
      rw [writeLoop_length (chunkSrc f) cs (hlen f) cpf (nc : ℤ) 0 (by positivity)]
      simp only [Int.toNat_natCast])]
  rw [List.length_range]

/-- C1 (code_bug): the spec's volume invariant — total records generated
= `numChunks * chunkSize`, exceeding `targetSize` by at most
`chunkSize - 1` — is violated by the code: every worker receives the full
`num_chunks` and writes `min(chunks_per_file, num_chunks)` chunks, so at
`targetSize = 150000000`, `chunkSize = 100000`, `chunksPerFile = 1000`
(`numChunks = 1500`, 2 temp files) the run writes `200000000` records,
not `numChunks * chunkSize = 150000000`, and the excess over `targetSize`
(50000000) exceeds `chunkSize - 1`. -/
theorem volume_invariant_violated :
    totalRecords (generateChunksInParallel (fun _ _ => List.replicate 100000 (0 : ℚ))
        (numChunks 150000000 100000) 1000) = 200000000
    ∧ numChunks 150000000 100000 * 100000 = 150000000
    ∧ 150000000 + (100000 - 1) < 200000000 := by
  have h := totalRecords_generate (fun _ _ => List.replicate 100000 (0 : ℚ)) 100000
    (numChunks 150000000 100000) 1000 (fun _ _ => List.length_replicate ..)
  have hnc : numChunks 150000000 100000 = 1500 := by norm_num [numChunks]
  refine ⟨?_, by rw [hnc], by norm_num⟩
  rw [h, hnc]
  norm_num [numFiles]

/-- C6 (confirmed): given `N` artifacts each consisting of one header line
and `k` records, the merge stage writes the final header first (before any
artifact is processed) and then exactly the `N*k` record lines in
artifact-index order: the final artifact is
`"Amount" :: concatenation of the headerless bodies`, of length `1 + N*k`. -/
theorem merge_correctness (files : List (List String)) (k : ℕ)
    (h : ∀ f ∈ files, f.length = k + 1) :
    concatenateResults files = "Amount" :: files.flatMap (fun f => f.drop 1)
    ∧ (concatenateResults files).length = 1 + files.length * k := by
  have heq : concatenateResults files = "Amount" :: files.flatMap (fun f => f.drop 1) := by
    rw [concatenateResults, concatenate_flat]
  refine ⟨heq, ?_⟩
  rw [heq]
  simp only [List.length_cons]
  rw [flatMap_length_const files (fun f => f.drop 1) k (by
    intro f hf
    rw [List.length_drop, h f hf]
    omega)]
  omega

/-- Witness for C6 at two artifacts with two records each. -/
theorem merge_correctness_witness :
    (∀ f ∈ [["Amount", "1", "2"], ["Amount", "3", "4"]], f.length = 2 + 1)
    ∧ concatenateResults [["Amount", "1", "2"], ["Amount", "3", "4"]]
        = ["Amount", "1", "2", "3", "4"] := by
  have h := merge_correctness [["Amount", "1", "2"], ["Amount", "3", "4"]] 2 (by decide)
  refine ⟨by decide, ?_⟩
  rw [h.1]
  decide

/-- C8 (confirmed): artifact identifiers (the file numbers that determine
the temp-file names of line 92) are produced by exactly one work unit each
(`Nodup`); the merge stage reads each artifact at most once, and each read
is immediately followed by the artifact's deletion. -/
theorem artifact_exclusivity (nc cpf : ℕ) :
    (artifactIds nc cpf).Nodup
    ∧ (∀ f : ℕ, (mergeEvents (artifactIds nc cpf)).count (MergeEvent.read f) ≤ 1)
    ∧ immediateDelete (mergeEvents (artifactIds nc cpf)) := by
  refine ⟨List.nodup_range _, ?_, mergeEvents_immediateDelete _⟩
  intro f
  rw [mergeEvents_count_read]
  exact List.nodup_iff_count_le_one.mp (List.nodup_range _) f

/-- C10 (confirmed): every artifact of a run contains one header line and
exactly `min(chunksPerFile, numChunks) * chunkSize` records — in
particular all artifacts, including the last one, have the same record
count, because each worker receives the same full `num_chunks`. -/
theorem artifact_record_counts (chunkSrc : ℕ → ℕ → List ℚ) (ts cs cpf : ℕ)
    (hts : 0 < ts) (hcs : 0 < cs) (hcpf : 0 < cpf)
    (hlen : ∀ f i, (chunkSrc f i).length = cs) :
    ∀ file ∈ generateChunksInParallel chunkSrc (numChunks ts cs) cpf,
      file.head? = some "Amount"
      ∧ file.length = 1 + min cpf (numChunks ts cs) * cs := by
  intro file hf
  rw [generateChunksInParallel] at hf
  obtain ⟨fileNo, _, hEq⟩ := List.mem_map.mp hf
  subst hEq
  refine ⟨rfl, ?_⟩
  show (writeChunksLines (chunkSrc fileNo) cpf ((numChunks ts cs : ℕ) : ℤ)).length = _
  rw [writeChunksLines]
  simp only [List.length_cons]
  rw [writeLoop_length (chunkSrc fileNo) cs (hlen fileNo) cpf _ 0 (by positivity)]
  simp only [Int.toNat_natCast]
  omega

/-- Witness for C10: `targetSize=5, chunkSize=2, chunksPerFile=2` gives
3 chunks over 2 files, 4 records (plus header) in each file. -/
theorem artifact_record_counts_witness :
    (0 < 5 ∧ 0 < 2 ∧ 0 < 2)
    ∧ ∀ file ∈ generateChunksInParallel (fun _ _ => [(0 : ℚ), 0]) (numChunks 5 2) 2,
        file.head? = some "Amount" ∧ file.length = 1 + min 2 (numChunks 5 2) * 2 :=
  ⟨⟨by norm_num, by norm_num, by norm_num⟩,
    artifact_record_counts (fun _ _ => [(0 : ℚ), 0]) 5 2 2
      (by norm_num) (by norm_num) (by norm_num) (fun _ _ => rfl)⟩

/-- C2 (corrected, theorem): with every mode indicator in `[0, V)`,
`inverse_transform_batch` is the pure elementwise map
`value * std[mode] + mean[mode]`. -/
theorem inverse_transform_elementwise (means stds data : List ℚ) (modes : List ℕ)
    (hlen : stds.length = means.length)
    (hm : ∀ mm ∈ modes, mm < means.length) :
    inverse_transform_batch means stds data modes
      = (data.zip modes).map (fun p => p.1 * stds.getD p.2 0 + means.getD p.2 0) := by
  unfold inverse_transform_batch
  apply List.map_congr_left
  intro p hp
  obtain ⟨x, mm⟩ := p
  have hpm : mm ∈ modes := (List.mem_zip hp).2
  have hmlt : mm < means.length := hm mm hpm
  show inverseCell means stds x mm = x * stds.getD mm 0 + means.getD mm 0
  unfold inverseCell
  rw [modeFold_lt _ _ _ (by rw [List.length_zip]; omega)]
  rw [zip_getD 0 0 means stds mm hmlt (by omega)]

/-- Witness for C2's theorem at `means=[5], stds=[2], data=[3], modes=[0]`. -/
theorem inverse_transform_elementwise_witness :
    (∀ mm ∈ [0], mm < [(5 : ℚ)].length)
    ∧ inverse_transform_batch [(5 : ℚ)] [2] [3] [0] = [11] := by
  have h := inverse_transform_elementwise [(5 : ℚ)] [2] [3] [0] rfl (by simp)
  refine ⟨by simp, ?_⟩
  rw [h]
  simp only [List.zip_cons_cons, List.zip_nil_right, List.map_cons, List.map_nil,
    List.getD_cons_zero]
  norm_num

/-- C2 (corrected, counterexample): an out-of-range mode indicator (7 with
V = 1) does not raise `IndexError` — the masked loop writes nothing at that
position, so the zero initialisation survives: the result is `[0]`, which
is not the elementwise map value `3 * 2 + 5`. -/
theorem inverse_transform_out_of_range :
    inverse_transform_batch [(5 : ℚ)] [2] [3] [7] = [0]
    ∧ (0 : ℚ) ≠ 3 * 2 + 5 := by
  refine ⟨?_, by norm_num⟩
  show [inverseCell [(5 : ℚ)] [2] 3 7] = [0]
  rw [inverseCell, modeFold_ge _ _ _ (by simp)]

/-- C3 (corrected, theorem): for every nonempty input frame the sampling
step of `_fit_vgm_model` succeeds for ANY requested `sample_size` —
`df.sample` is called with `replace=True`, so a fraction above 1 is legal
and `sample_size` rows are drawn; no `ValidationError` is ever raised and
generation proceeds. -/
theorem oversample_proceeds (nRows sampleSize : ℕ) (h : 0 < nRows) :
    fitVgmSampleCount nRows sampleSize = Except.ok sampleSize := by
  rw [fitVgmSampleCount, if_neg (by omega), pandasSampleCount]
  rw [if_neg (not_lt.mpr (by positivity))]
  rw [if_neg (by simp)]
  have hne : ((nRows : ℚ)) ≠ 0 := by
    exact_mod_cast Nat.pos_iff_ne_zero.mp h
  have hval : ((sampleSize : ℚ) / (nRows : ℚ)) * (nRows : ℚ) = (sampleSize : ℚ) := by
    field_simp
  rw [hval, round_natCast, Int.toNat_natCast]

/-- Witness for C3's theorem: 4 rows, requested sample 10. -/
theorem oversample_proceeds_witness :
    0 < 4 ∧ fitVgmSampleCount 4 10 = Except.ok 10 :=
  ⟨by norm_num, oversample_proceeds 4 10 (by norm_num)⟩

/-- C3 (corrected, counterexample): a request whose `sampleSize` (10)
exceeds the available rows (4) does NOT fail with `ValidationError`: the
sampling step returns `ok` and the job goes on to generate. -/
theorem oversample_no_validation_error :
    fitVgmSampleCount 4 10 = Except.ok 10
    ∧ (Except.ok 10 : Except PyErr ℕ) ≠ Except.error PyErr.validationError := by
  refine ⟨?_, fun h => Except.noConfusion h⟩
  rw [fitVgmSampleCount, if_neg (by norm_num), pandasSampleCount,
    if_neg (not_lt.mpr (by positivity)), if_neg (by simp)]
  have hval : (((10 : ℕ) : ℚ) / ((4 : ℕ) : ℚ)) * ((4 : ℕ) : ℚ) = ((10 : ℕ) : ℚ) := by
    norm_num
  rw [hval, round_natCast, Int.toNat_natCast]

/-- `maskFilter` keeps at least one element when some mask entry is true
and the lists are aligned. -/
theorem maskFilter_pos : ∀ (l : List ℚ) (mask : List Bool),
    l.length = mask.length → true ∈ mask → 1 ≤ (maskFilter l mask).length := by
  intro l mask
  induction mask generalizing l with
  | nil => intro _ hmem; simp at hmem
  | cons b mrest ih =>
      intro hlen hmem
      match l with
      | [] => simp at hlen
      | a :: lrest =>
          match b with
          | true =>
              have : maskFilter (a :: lrest) (true :: mrest)
                  = a :: maskFilter lrest mrest := by
                simp [maskFilter]
              rw [this]
              simp
          | false =>
              have hmem' : true ∈ mrest := by simpa using hmem
              have : maskFilter (a :: lrest) (false :: mrest)
                  = maskFilter lrest mrest := by
                simp [maskFilter]
              rw [this]
              exact ih lrest (by simpa using hlen) hmem'

/-- C4 (confirmed): `fit` fails with `FitError` on a sample shorter than
`componentCount`, on non-finite entries, and on constant (or empty)
samples; and whenever it succeeds, at least one component survived the
`weight > EPS` pruning, i.e. `V ≥ 1` — because the mixture weights sum to
1 and `N_COMPONENTS * EPS < 1`, not every weight can be `≤ EPS`.  (The
source has no explicit zero-survivor check; the success case shows the
claimed "zero components survive" failure state is unreachable.) -/
theorem fit_valid_components (sample : List (Option ℚ)) (w m s : List ℚ)
    (hw : w.length = N_COMPONENTS) (hm : m.length = w.length)
    (hnn : ∀ x ∈ w, 0 ≤ x) (hsum : w.sum = 1) :
    (sample.length < N_COMPONENTS →
        fit (initVGM N_COMPONENTS) sample w m s = Except.error PyErr.fitError)
    ∧ (sample.any (fun x => x.isNone) = true →
        fit (initVGM N_COMPONENTS) sample w m s = Except.error PyErr.fitError)
    ∧ (isConstantSample sample = true →
        fit (initVGM N_COMPONENTS) sample w m s = Except.error PyErr.fitError)
    ∧ (∀ st ms, fit (initVGM N_COMPONENTS) sample w m s = Except.ok st →
        st.means = some ms → 1 ≤ ms.length) := by
  have hk : (initVGM N_COMPONENTS).n_components = N_COMPONENTS := rfl
  refine ⟨?_, ?_, ?_, ?_⟩
  · intro hshort
    rw [fit, hk, bgmFitValidate, if_pos hshort]
  · intro hnone
    rw [fit, hk, bgmFitValidate]
    by_cases h1 : sample.length < N_COMPONENTS
    · rw [if_pos h1]
    · rw [if_neg h1, if_pos hnone]
  · intro hconst
    rw [fit, hk, bgmFitValidate]
    by_cases h1 : sample.length < N_COMPONENTS
    · rw [if_pos h1]
    · rw [if_neg h1]
      by_cases h2 : sample.any (fun x => x.isNone) = true
      · rw [if_pos h2]
      · rw [if_neg h2, if_pos hconst]
  · intro st ms hfit hms
    rw [fit, hk] at hfit
    cases hval : bgmFitValidate sample N_COMPONENTS with
    | some e => rw [hval] at hfit; exact Except.noConfusion hfit
    | none =>
        rw [hval] at hfit
        have hst : st = ⟨N_COMPONENTS, true,
            some (maskFilter m (w.map (fun wi => decide (EPS < wi)))),
            some (maskFilter s (w.map (fun wi => decide (EPS < wi))))⟩ :=
          (Except.ok.injEq .. ▸ hfit).symm
        subst hst
        simp only [Option.some_inj] at hms
        subst hms
        have hex : ∃ wi ∈ w, EPS < wi := by
          by_contra hno
          push_neg at hno
          have hle := List.sum_le_card_nsmul w EPS hno
          rw [hsum, hw] at hle
          have : (N_COMPONENTS • EPS : ℚ) = 10 / 1000000 := by
            rw [nsmul_eq_mul]
            norm_num [N_COMPONENTS, EPS]
          rw [this] at hle
          norm_num at hle
        obtain ⟨wi, hwi, hgt⟩ := hex
        apply maskFilter_pos
        · rw [List.length_map, ← hm]
        · exact List.mem_map.mpr ⟨wi, hwi, decide_eq_true hgt⟩

/-- Witness for C4: a 10-point sample with distinct finite values and BGM
output weights `[1, 0, ..., 0]`; `fit` succeeds with one valid component. -/
theorem fit_valid_components_witness :
    (((1 : ℚ) :: List.replicate 9 0).length = N_COMPONENTS
      ∧ (List.replicate 10 (0 : ℚ)).length = ((1 : ℚ) :: List.replicate 9 0).length
      ∧ (∀ x ∈ (1 : ℚ) :: List.replicate 9 0, 0 ≤ x)
      ∧ ((1 : ℚ) :: List.replicate 9 0).sum = 1)
    ∧ (∀ st ms,
        fit (initVGM N_COMPONENTS) ((List.range 10).map (fun i => some (i : ℚ)))
          ((1 : ℚ) :: List.replicate 9 0) (List.replicate 10 (0 : ℚ))
          (List.replicate 10 (0 : ℚ)) = Except.ok st →
        st.means = some ms → 1 ≤ ms.length) :=
  ⟨⟨by simp [N_COMPONENTS], by simp,
      by
        intro x hx
        simp only [List.mem_cons, List.mem_replicate] at hx
        rcases hx with h | ⟨_, h⟩ <;> subst h <;> norm_num,
      by simp⟩,
    (fit_valid_components ((List.range 10).map (fun i => some (i : ℚ)))
      ((1 : ℚ) :: List.replicate 9 0) (List.replicate 10 (0 : ℚ))
      (List.replicate 10 (0 : ℚ)) (by simp [N_COMPONENTS]) (by simp)
      (by
        intro x hx
        simp only [List.mem_cons, List.mem_replicate] at hx
        rcases hx with h | ⟨_, h⟩ <;> subst h <;> norm_num)
      (by simp)).2.2.2⟩

/-- C7 (corrected, theorem): on a model on which `fit` has not run,
`transform_batch` fails with sklearn's `NotFittedError` (the
`predict_proba` guard), while `_generate_chunk` fails with `TypeError`
(`len(vgm.means)` on `None`). -/
theorem unfitted_errors (st : ScalableVGMState) (assign : ℚ → ℕ)
    (data normals : List ℚ) (draws : List ℕ)
    (h1 : st.fitted = false) (h2 : st.means = none) :
    transform_batch st assign data = Except.error PyErr.notFittedError
    ∧ generateChunk st normals draws = Except.error PyErr.typeError := by
  constructor
  · rw [transform_batch, if_pos h1]
  · rw [generateChunk, h2]

/-- Witness for C7's theorem at the freshly initialised model. -/
theorem unfitted_errors_witness :
    ((initVGM 10).fitted = false ∧ (initVGM 10).means = none)
    ∧ transform_batch (initVGM 10) (fun _ => 0) [1] = Except.error PyErr.notFittedError
    ∧ generateChunk (initVGM 10) [1] [0] = Except.error PyErr.typeError :=
  ⟨⟨rfl, rfl⟩, unfitted_errors (initVGM 10) (fun _ => 0) [1] [1] [0] rfl rfl⟩

/-- C7 (corrected, counterexample): generating a chunk from an unfitted
model fails, but with `TypeError`, not the claimed `NotFittedError`. -/
theorem generate_unfitted_type_error :
    generateChunk (initVGM 10) [(1 : ℚ)] [0] = Except.error PyErr.typeError
    ∧ PyErr.typeError ≠ PyErr.notFittedError :=
  ⟨rfl, by decide⟩

/-- C9 (corrected, theorem): every worker artifact file is the header
`Amount` followed by `%.6f`-formatted lines, each with exactly six
fractional digits; the transactional-store export writes the `Amount`
header but formats its value lines with pandas' default (shortest
decimal) representation `toCsvRepr`, not `%.6f`. -/
theorem flat_file_formats :
    (∀ (chunks : ℕ → List ℚ) (cpf : ℕ) (nc : ℤ),
        (writeChunksLines chunks cpf nc).head? = some "Amount"
        ∧ ∀ l ∈ (writeChunksLines chunks cpf nc).drop 1, sixFrac l)
    ∧ (∀ rows : List ℚ, (exportSyntheticData rows).head? = some "Amount"
        ∧ (exportSyntheticData rows).drop 1 = rows.map toCsvRepr) := by
  constructor
  · intro chunks cpf nc
    refine ⟨rfl, ?_⟩
    intro l hl
    have hl' : l ∈ writeLoop chunks cpf nc 0 := by
      simpa [writeChunksLines] using hl
    obtain ⟨q, hq⟩ := writeLoop_lines chunks cpf nc 0 l hl'
    rw [hq]
    exact sixFrac_fmt6 q
  · intro rows
    exact ⟨rfl, rfl⟩

/-- C9 (corrected, counterexample): exporting the stored value `0.5`
writes the line `0.5` (pandas default formatting), which does not have
six fractional digits — the claim fails for the export path. -/
theorem export_default_format :
    exportSyntheticData [(1 : ℚ) / 2] = ["Amount", "0.5"]
    ∧ ¬ sixFrac "0.5" := by
  have hden0 : (((1 : ℚ) / 2) * 10 ^ 0).den = 2 := by norm_num
  have hden1 : (((1 : ℚ) / 2) * 10 ^ 1).den = 1 := by norm_num
  have hmin : minDecDigits ((1 : ℚ) / 2) = 1 := by
    rw [minDecDigits, show List.range 18 = 0 :: 1 :: List.range' 2 16 from by decide]
    rw [List.find?_cons_of_neg _ (by simp only [hden0]; decide),
      List.find?_cons_of_pos _ (by simp only [hden1]; decide)]
    rfl
  have hfl : ⌊((1 : ℚ) / 2) * 10 ^ (1 : ℕ)⌋ = 5 := by norm_num
  have htcr : toCsvRepr ((1 : ℚ) / 2) = "0.5" := by
    rw [toCsvRepr, hmin, hfl, if_neg (by norm_num : ¬ ((1 : ℚ) / 2) < 0),
      if_neg (by norm_num : ¬ (1 : ℕ) = 0)]
    decide
  refine ⟨?_, by decide⟩
  simp only [exportSyntheticData, List.map_cons, List.map_nil]
  rw [htcr]

/-! ## C5: the round trip -/

theorem argmaxList_pair (a b : ℝ) : argmaxList [a, b] = if a < b then 1 else 0 := by
  by_cases h : a < b
  · rw [if_pos h]
    simp [argmaxList, argmaxAux, h]
  · rw [if_neg h]
    simp [argmaxList, argmaxAux, h]

/-- Same weight, same std: the weighted Gaussian density is strictly
larger at the component whose mean is closer. -/
theorem gaussResp_lt (w mean1 mean2 std x : ℝ) (hw : 0 < w) (hstd : 0 < std)
    (h : (x - mean2) ^ 2 < (x - mean1) ^ 2) :
    gaussResp w mean1 std x < gaussResp w mean2 std x := by
  unfold gaussResp
  have hs : 0 < Real.sqrt (2 * Real.pi) := Real.sqrt_pos.mpr (by positivity)
  have hc : 0 < w / (std * Real.sqrt (2 * Real.pi)) := div_pos hw (mul_pos hstd hs)
  apply mul_lt_mul_of_pos_left _ hc
  apply Real.exp_lt_exp.mpr
  apply neg_lt_neg
  exact (div_lt_div_right (by positivity)).mpr h

/-- A concrete fitted model: two equally weighted unit-variance components
at means 0 and 100. -/
noncomputable def cexModel : FittedVGM :=
  ⟨[1 / 2, 1 / 2], [0, 100], [1, 1]⟩

theorem resp_cexModel (x : ℝ) :
    responsibilities cexModel x
      = [gaussResp (1 / 2) 0 1 x, gaussResp (1 / 2) 100 1 x] := rfl

theorem assignMode_cex_90 : assignMode cexModel 90 = 1 := by
  rw [assignMode, resp_cexModel, argmaxList_pair, if_pos]
  apply gaussResp_lt <;> norm_num

theorem assignMode_cex_0 : assignMode cexModel 0 = 0 := by
  rw [assignMode, resp_cexModel, argmaxList_pair, if_neg]
  apply not_lt.mpr
  apply le_of_lt
  apply gaussResp_lt <;> norm_num

theorem inverseOne_cex_90 : inverseOne cexModel 90 0 = 90 := by
  rw [inverseOne, inverseCell, modeFold_lt _ _ _ (by simp [cexModel])]
  norm_num [cexModel]

/-- C5 (corrected, counterexample): for the fitted model with valid
components `(w, mean, std) = (1/2, 0, 1), (1/2, 100, 1)` and the in-range
pair `v = 90, m = 0`, the reconstructed value is `90`, whose arg-max
responsibility component is `1`, so `transform(inverseTransform(v, m))`
returns `(-10, 1)`: the mode is not recovered, and the value differs from
`v` by `100`, far beyond the `1e-6` tolerance. -/
theorem round_trip_fails :
    (transformOne cexModel (inverseOne cexModel 90 0)).2 ≠ 0
    ∧ (1 : ℝ) / 1000000 < |(transformOne cexModel (inverseOne cexModel 90 0)).1 - 90| := by
  have htr : transformOne cexModel 90 = (-10, 1) := by
    rw [transformOne, assignMode_cex_90, forwardCell,
      modeFold_lt _ _ _ (by simp [cexModel])]
    norm_num [cexModel]
  rw [inverseOne_cex_90, htr]
  constructor
  · norm_num
  · have habs : ((-10 : ℝ), 1).1 - 90 = -100 := by norm_num
    rw [habs, abs_neg, abs_of_pos (by norm_num : (0 : ℝ) < 100)]
    norm_num

/-- C5 (corrected, theorem): the round trip recovers `(v, m)` — exactly,
hence within the 1e-6 tolerance — precisely when the arg-max component
assigned to the reconstructed value `v * std[m] + mean[m]` is `m` itself
(and `std[m] ≠ 0`); the counterexample shows this side condition is not
implied by `m` being in range. -/
theorem round_trip_mode_agreement (M : FittedVGM) (v : ℝ) (mm : ℕ)
    (hlen : M.stds.length = M.means.length)
    (hmm : mm < M.means.length)
    (hstd : ((M.means.zip M.stds).getD mm (0, 0)).2 ≠ 0)
    (hassign : assignMode M (inverseOne M v mm) = mm) :
    transformOne M (inverseOne M v mm) = (v, mm) := by
  have hz : mm < (M.means.zip M.stds).length := by
    rw [List.length_zip]; omega
  rw [transformOne, hassign, inverseOne, inverseCell, modeFold_lt _ _ _ hz,
    forwardCell, modeFold_lt _ _ _ hz,
    zip_getD 0 0 M.means M.stds mm hmm (by omega)]
  rw [zip_getD 0 0 M.means M.stds mm hmm (by omega)] at hstd
  have h2 : M.stds.getD mm 0 ≠ 0 := by simpa using hstd
  rw [Prod.mk.injEq]
  refine ⟨?_, rfl⟩
  have hx : ∀ me sd : ℝ, sd ≠ 0 → (v * sd + me - me) / sd = v := by
    intro me sd hsd
    field_simp
  simpa using hx (M.means.getD mm 0) (M.stds.getD mm 0) h2

/-- Witness for C5's theorem: same model, `v = 0, m = 0`; the
reconstructed value 0 is assigned component 0, and the round trip
returns `(0, 0)` exactly. -/
theorem round_trip_mode_agreement_witness :
    (cexModel.stds.length = cexModel.means.length
      ∧ 0 < cexModel.means.length
      ∧ ((cexModel.means.zip cexModel.stds).getD 0 (0, 0)).2 ≠ 0
      ∧ assignMode cexModel (inverseOne cexModel 0 0) = 0)
    ∧ transformOne cexModel (inverseOne cexModel 0 0) = (0, 0) := by
  have hinv : inverseOne cexModel 0 0 = 0 := by
    rw [inverseOne, inverseCell, modeFold_lt _ _ _ (by simp [cexModel])]
    norm_num [cexModel]
  have hassign : assignMode cexModel (inverseOne cexModel 0 0) = 0 := by
    rw [hinv]; exact assignMode_cex_0
  refine ⟨⟨rfl, by simp [cexModel], by norm_num [cexModel], hassign⟩, ?_⟩
  exact round_trip_mode_agreement cexModel 0 0 rfl (by simp [cexModel])
    (by norm_num [cexModel]) hassign

end ProductionML
